import Mathlib

/-!
Verification of `compression.go` from the gojuno/websocket repository
(permessage-deflate support: truncating trailer writer, flate wrapper
streams, compression-level pools, and context-takeover sliding window).

Bytes are modelled as `Nat`, byte slices as `List Nat`, Go `int` as `Int`
where negative levels matter and as `Nat` where only nonnegative values
occur.  The underlying `io.WriteCloser` sink of a `truncWriter` is
modelled by folding the bytes it has received into the field `out`
(an in-memory sink that never fails); the identity of the sink object
is kept in the field `w`.
-/

namespace Websocket

/-- Constant `minCompressionLevel = -2` from `compression.go`. -/
def minCompressionLevel : Int := -2

/-- Constant `maxCompressionLevel = flate.BestCompression = 9` from `compression.go`. -/
def maxCompressionLevel : Int := 9

/-- Constant `defaultCompressionLevel = 1` from `compression.go`. -/
def defaultCompressionLevel : Int := 1

/-- The 4-byte DEFLATE sync-flush marker `{0x00, 0x00, 0xff, 0xff}` that
`flateWriteWrapper.Close` expects to find in the truncWriter's buffer. -/
def trailer4 : List Nat := [0x00, 0x00, 0xff, 0xff]

/-- The final empty stored block `"\x01\x00\x00\xff\xff"` appended after the
sync-flush marker in the constant `tail` of `compression.go`. -/
def finalBlock : List Nat := [0x01, 0x00, 0x00, 0xff, 0xff]

/-- Constant `tail` from `compression.go`: the sync-flush marker followed by a
final empty stored block, appended to every decompression input. -/
def tail : List Nat := trailer4 ++ finalBlock

/-- Number of per-level writer pools: the size of the array
`flateWriterPools [maxCompressionLevel - minCompressionLevel + 1]sync.Pool`. -/
def flateWriterPoolsLen : Nat := (maxCompressionLevel - minCompressionLevel).toNat + 1

/-- `isValidCompressionLevel` from `compression.go`:
`minCompressionLevel <= level && level <= maxCompressionLevel`. -/
def isValidCompressionLevel (level : Int) : Prop :=
  minCompressionLevel ≤ level ∧ level ≤ maxCompressionLevel

instance (level : Int) : Decidable (isValidCompressionLevel level) := by
  unfold isValidCompressionLevel; infer_instance

/-- Modelled from the spec: the error values that `compression.go` uses but
does not define in `src/` (`errWriteClosed`, declared elsewhere in the
repository as a typed "write closed" error) together with the error values it
uses from the standard library (`io.EOF`, `io.ErrClosedPipe`), the
internal-fault error created by `errors.New` at a trailer mismatch, and
generic I/O errors from the underlying sink or source. -/
inductive GoError where
  | eof : GoError
  | closedPipe : GoError
  | writeClosed : GoError
  | internalError : GoError
  | ioError : Nat → GoError
deriving DecidableEq, Repr

/-- The state of a `truncWriter` from `compression.go`: the identity `w` of the
underlying sink, the list `out` of bytes forwarded to the underlying sink so
far (the in-memory model of the sink), the count `n` of held bytes, and the
4-byte holding array `p` (always of length 4, like `[4]byte`). -/
structure truncWriter where
  w : Nat
  out : List Nat
  n : Nat
  p : List Nat
deriving DecidableEq, Repr

/-- `truncWriter.Write` from `compression.go`, over an error-free underlying
sink.  Phase 1 copies `min (4 - n) q.length` incoming bytes into the holding
array (`copy(w.p[w.n:], p)`); if the input is exhausted it returns.  Phase 2
forwards the first `m = min (len rest) 4` held bytes to the underlying sink
(`w.w.Write(w.p[:m])`), shifts the holding array left by `m` and refills its
last `m` slots with the last `m` remaining input bytes (the two `copy`
calls), and forwards all remaining input bytes but those `m`
(`w.w.Write(p[:len(p)-m])`). -/
def truncWriter.write (t : truncWriter) (q : List Nat) : truncWriter :=
  let k := if t.n < 4 then min (4 - t.n) q.length else 0
  let p1 := t.p.take t.n ++ q.take k ++ t.p.drop (t.n + k)
  let rest := q.drop k
  if rest = [] then { t with p := p1, n := t.n + k }
  else
    let m := min rest.length 4
    { t with
      out := t.out ++ p1.take m ++ rest.take (rest.length - m)
      n := t.n + k
      p := p1.drop m ++ rest.drop (rest.length - m) }

/-- The `truncWriter` made by `compressNoContextTakeover`:
`&truncWriter{w: w}` — Go zero values for the other fields. -/
def truncWriter.mk0 (sink : Nat) : truncWriter :=
  { w := sink, out := [], n := 0, p := [0, 0, 0, 0] }

/-- Folding a sequence of `Write` calls (one list per call) over a
`truncWriter`. -/
def truncWriter.writeChunks (t : truncWriter) (chunks : List (List Nat)) : truncWriter :=
  chunks.foldl truncWriter.write t

/-- Invariant tying a `truncWriter` to the cumulative byte sequence `S` it has
received since its held count was last reset, and to the sink content `base`
at that reset: the holding array has length 4, holds the last
`min 4 (length S)` bytes of `S`, and everything earlier has been forwarded. -/
def truncInv (t : truncWriter) (base S : List Nat) : Prop :=
  t.p.length = 4 ∧ t.n = min S.length 4 ∧
  t.p.take t.n = S.drop (S.length - t.n) ∧
  t.out = base ++ S.take (S.length - t.n)

theorem take_min4 (a b : List Nat) (h : a.length = 4) :
    a.take (min b.length 4) ++ b.take (b.length - min b.length 4) =
      (a ++ b).take b.length := by
  rw [List.take_append_eq_append_take, h]
  rcases le_or_lt b.length 4 with hb | hb
  · have h1 : min b.length 4 = b.length := by omega
    have h2 : b.length - b.length = 0 := by omega
    have h3 : b.length - 4 = 0 := by omega
    rw [h1, h2, h3]
  · have h1 : min b.length 4 = 4 := by omega
    rw [h1]
    have h2 : a.take 4 = a := List.take_of_length_le (by omega)
    have h3 : a.take b.length = a := List.take_of_length_le (by omega)
    rw [h2, h3]

theorem drop_min4 (a b : List Nat) (h : a.length = 4) :
    a.drop (min b.length 4) ++ b.drop (b.length - min b.length 4) =
      (a ++ b).drop b.length := by
  rw [List.drop_append_eq_append_drop, h]
  rcases le_or_lt b.length 4 with hb | hb
  · have h1 : min b.length 4 = b.length := by omega
    have h2 : b.length - b.length = 0 := by omega
    have h3 : b.length - 4 = 0 := by omega
    rw [h1, h2, h3]
  · have h1 : min b.length 4 = 4 := by omega
    rw [h1]
    have h2 : a.drop 4 = [] := List.drop_eq_nil_of_le (by omega)
    have h3 : a.drop b.length = [] := List.drop_eq_nil_of_le (by omega)
    rw [h2, h3]

theorem take_glue (S q : List Nat) (h : 4 ≤ S.length) :
    S.take (S.length - 4) ++ (S.drop (S.length - 4) ++ q).take q.length =
      (S ++ q).take (S.length + q.length - 4) := by
  have h1 : S.length + q.length - 4 = (S.length - 4) + q.length := by omega
  rw [h1, List.take_add]
  congr 1
  · exact (List.take_append_of_le_length (by omega)).symm
  · congr 1
    exact (List.drop_append_of_le_length (by omega)).symm

theorem drop_glue (S q : List Nat) (h : 4 ≤ S.length) :
    (S.drop (S.length - 4) ++ q).drop q.length =
      (S ++ q).drop (S.length + q.length - 4) := by
  have h1 : S.length + q.length - 4 = (S.length - 4) + q.length := by omega
  rw [h1, ← List.drop_drop]
  congr 1
  exact (List.drop_append_of_le_length (by omega)).symm

/-- One `Write` call preserves the truncating invariant: the cumulative input
grows by the written chunk. -/
theorem truncInv_write (t : truncWriter) (base S q : List Nat)
    (h : truncInv t base S) : truncInv (t.write q) base (S ++ q) := by
  obtain ⟨hp, hn, hheld, hout⟩ := h
  simp only [truncWriter.write]
  rcases Nat.lt_or_ge t.n 4 with hlt | hge
  · -- holding array not yet full: |S| = t.n < 4
    have hSlen : S.length = t.n := by omega
    have hheldS : t.p.take t.n = S := by
      rw [hheld, hSlen, Nat.sub_self, List.drop_zero]
    have houtS : t.out = base := by
      rw [hout, hSlen, Nat.sub_self, List.take_zero, List.append_nil]
    rw [if_pos hlt]
    rcases le_or_lt q.length (4 - t.n) with hq | hq
    · -- chunk fully absorbed into the holding array
      have hk : min (4 - t.n) q.length = q.length := by omega
      rw [hk, List.drop_length, if_pos rfl]
      have hidx0 : (S ++ q).length - (t.n + q.length) = 0 := by
        simp only [List.length_append, hSlen]; omega
      refine ⟨?_, ?_, ?_, ?_⟩
      · simp only [List.length_append, List.length_take, List.length_drop, hp]
        omega
      · simp only [List.length_append, hSlen]; omega
      · rw [hidx0, List.drop_zero, List.take_length]
        have hAlen : t.n + q.length = (t.p.take t.n ++ q).length := by
          simp only [List.length_append, List.length_take, hp]; omega
        rw [hAlen, List.take_left, hheldS]
      · rw [hidx0, List.take_zero, List.append_nil, houtS]
    · -- chunk overflows the holding array: fill to 4, then phase 2
      have hk : min (4 - t.n) q.length = 4 - t.n := by omega
      rw [hk]
      have hrestlen : (q.drop (4 - t.n)).length = q.length - (4 - t.n) :=
        List.length_drop _ _
      have hrestne : q.drop (4 - t.n) ≠ [] := by
        intro hc
        have := congrArg List.length hc
        rw [hrestlen] at this
        simp only [List.length_nil] at this
        omega
      rw [if_neg hrestne]
      have hdrop4 : t.p.drop (t.n + (4 - t.n)) = [] :=
        List.drop_eq_nil_of_le (by omega)
      have hp1 : (t.p.take t.n ++ q.take (4 - t.n)) ++ t.p.drop (t.n + (4 - t.n)) =
          S ++ q.take (4 - t.n) := by
        rw [hdrop4, List.append_nil, hheldS]
      have hAlen : (S ++ q.take (4 - t.n)).length = 4 := by
        simp only [List.length_append, List.length_take, hSlen]; omega
      have hsplit : (S ++ q.take (4 - t.n)) ++ q.drop (4 - t.n) = S ++ q := by
        rw [List.append_assoc, List.take_append_drop]
      have htn4 : t.n + (4 - t.n) = 4 := by omega
      have hidx : (S ++ q).length - 4 = (q.drop (4 - t.n)).length := by
        simp only [List.length_append, hrestlen, hSlen]; omega
      refine ⟨?_, ?_, ?_, ?_⟩
      · rw [hp1, drop_min4 _ _ hAlen]
        simp only [List.length_drop, List.length_append, hAlen]
        omega
      · simp only [List.length_append, hSlen]; omega
      · rw [hp1, drop_min4 _ _ hAlen, htn4, hidx, ← hsplit]
        apply List.take_of_length_le
        simp only [List.length_drop, List.length_append, hAlen]
        omega
      · rw [houtS, hp1, List.append_assoc, take_min4 _ _ hAlen, htn4, hidx,
          ← hsplit]
  · -- holding array full: t.n = 4 and |S| ≥ 4
    have hn4 : t.n = 4 := by omega
    have hSge : 4 ≤ S.length := by omega
    have hpfull : t.p = S.drop (S.length - 4) := by
      have : t.p.take t.n = t.p := List.take_of_length_le (by omega)
      rw [← this, hheld, hn4]
    rw [if_neg (by omega : ¬ t.n < 4)]
    have hp1 : (t.p.take t.n ++ List.take 0 q) ++ t.p.drop (t.n + 0) = t.p := by
      simp only [List.take_zero, List.append_nil, Nat.add_zero]
      exact List.take_append_drop _ _
    simp only [List.drop_zero]
    rcases eq_or_ne q [] with rfl | hq0
    · rw [if_pos rfl]
      simp only [List.take_zero, List.append_nil, Nat.add_zero,
        List.take_append_drop]
      exact ⟨hp, hn, hheld, hout⟩
    · rw [if_neg hq0]
      have hidx : (S ++ q).length - (t.n + 0) = S.length + q.length - 4 := by
        simp only [List.length_append]; omega
      refine ⟨?_, ?_, ?_, ?_⟩
      · rw [hp1, drop_min4 _ _ hp]
        simp only [List.length_drop, List.length_append, hp]
        omega
      · simp only [List.length_append]; omega
      · rw [hp1, drop_min4 _ _ hp, hidx, Nat.add_zero, hn4, hpfull,
          drop_glue S q hSge]
        apply List.take_of_length_le
        simp only [List.length_drop, List.length_append]
        omega
      · rw [hout, hp1, List.append_assoc, take_min4 _ _ hp, hidx, hn4,
          hpfull, List.append_assoc, take_glue S q hSge]

/-- Folding `Write` calls preserves the truncating invariant. -/
theorem truncInv_writeChunks (chunks : List (List Nat)) :
    ∀ (t : truncWriter) (base S : List Nat), truncInv t base S →
      truncInv (t.writeChunks chunks) base (S ++ chunks.flatten) := by
  induction chunks with
  | nil =>
    intro t base S h
    simpa [truncWriter.writeChunks] using h
  | cons c cs ih =>
    intro t base S h
    have h1 := truncInv_write t base S c h
    have h2 := ih (t.write c) base (S ++ c) h1
    simpa [truncWriter.writeChunks, List.append_assoc] using h2

/-- A fresh `truncWriter` satisfies the invariant for the empty stream. -/
theorem truncInv_mk0 (sink : Nat) : truncInv (truncWriter.mk0 sink) [] [] := by
  refine ⟨rfl, rfl, rfl, rfl⟩

/-- Claim C1: for every byte sequence and every way of splitting it into
successive `truncWriter.Write` calls, the bytes forwarded to the underlying
sink before close are the same — they are determined by the concatenation of
the chunks alone — and equal the full input sequence with its last
`min 4 length` bytes removed. -/
theorem truncWriter_streaming_equivalence (sink : Nat) (chunks : List (List Nat)) :
    ((truncWriter.mk0 sink).writeChunks chunks).out =
      chunks.flatten.take (chunks.flatten.length - min 4 chunks.flatten.length) := by
  have h := truncInv_writeChunks chunks (truncWriter.mk0 sink) [] [] (truncInv_mk0 sink)
  rw [List.nil_append] at h
  obtain ⟨-, hn, -, hout⟩ := h
  rw [hout, List.nil_append, hn, Nat.min_comm]

/-! ## Context-takeover read side: sliding window -/

/-- Modelled from the spec: the constant `maxWindowBits` used by
`flateTakeoverReadWrapper.Read` as the byte cap of the sliding window is not
declared in `src/`; the spec fixes the cap at the DEFLATE history-window
limit of 32 KiB, so it is modelled as `32768`. -/
def maxWindowBits : Nat := 32768

/-- The state of a `contextTakeoverReaderFactory` from `compression.go`:
whether the decompressor reference `fr` is non-nil, and the sliding `window`
of recently decompressed bytes. -/
structure contextTakeoverReaderFactory where
  frOpen : Bool
  window : List Nat
deriving DecidableEq, Repr

/-- `flateTakeoverReadWrapper.Read` from `compression.go`.  The underlying
decompressor's behaviour on this call is external input: it produced the
bytes `chunk` into the caller's buffer and returned error `err`.  The wrapper
returns `(0, io.ErrClosedPipe)` when `fr` is nil; otherwise it appends
`chunk` to the window, trims the window's front when it exceeds
`maxWindowBits`, and (on `io.EOF`) calls `Close`, which has no effect on
this state (it only closes the underlying decompressor). -/
def flateTakeoverReadWrapper.read (f : contextTakeoverReaderFactory)
    (chunk : List Nat) (err : Option GoError) :
    contextTakeoverReaderFactory × List Nat × Option GoError :=
  if f.frOpen then
    let win1 := f.window ++ chunk
    let win2 := if win1.length > maxWindowBits
      then win1.drop (win1.length - maxWindowBits) else win1
    ({ f with window := win2 }, chunk, err)
  else (f, [], some GoError.closedPipe)

/-- `flateTakeoverReadWrapper.Close` from `compression.go`: when `fr` is nil
it returns `io.ErrClosedPipe`; otherwise it closes the underlying
decompressor (whose result `frCloseErr` is external input) and returns that
error.  It does not modify the factory: in particular it never sets
`f.fr` to nil. -/
def flateTakeoverReadWrapper.close (f : contextTakeoverReaderFactory)
    (frCloseErr : Option GoError) :
    contextTakeoverReaderFactory × Option GoError :=
  if f.frOpen then (f, frCloseErr) else (f, some GoError.closedPipe)

/-- A sequence of `Read` calls on a context-takeover read wrapper, one list
of produced bytes per call (all calls succeeding, no EOF yet). -/
def flateTakeoverReadWrapper.readAll (f : contextTakeoverReaderFactory)
    (chunks : List (List Nat)) : contextTakeoverReaderFactory :=
  chunks.foldl (fun g c => (flateTakeoverReadWrapper.read g c none).1) f

/-- The normal form of the window update: keep the last `maxWindowBits`
bytes (everything, when shorter than the cap). -/
def windowTrim (win : List Nat) : List Nat :=
  win.drop (win.length - maxWindowBits)

theorem windowTrim_eq_ite (win : List Nat) :
    (if win.length > maxWindowBits
      then win.drop (win.length - maxWindowBits) else win) = windowTrim win := by
  unfold windowTrim
  split
  · rfl
  · rename_i h
    have : win.length - maxWindowBits = 0 := by omega
    rw [this, List.drop_zero]

theorem read_window_eq (f : contextTakeoverReaderFactory) (chunk : List Nat)
    (err : Option GoError) (h : f.frOpen = true) :
    (flateTakeoverReadWrapper.read f chunk err).1 =
      { f with window := windowTrim (f.window ++ chunk) } := by
  simp only [flateTakeoverReadWrapper.read, h, if_pos, windowTrim_eq_ite]

/-- Trimming absorbs previous trims: the retained window depends only on the
full cumulative output. -/
theorem windowTrim_absorb (S c : List Nat) :
    windowTrim (windowTrim S ++ c) = windowTrim (S ++ c) := by
  unfold windowTrim
  have h1 : S.drop (S.length - maxWindowBits) ++ c =
      (S ++ c).drop (S.length - maxWindowBits) :=
    (List.drop_append_of_le_length (by omega)).symm
  have h2 : (S.length - maxWindowBits) +
      (((S ++ c).drop (S.length - maxWindowBits)).length - maxWindowBits) =
      (S ++ c).length - maxWindowBits := by
    simp only [List.length_drop, List.length_append]
    omega
  rw [h1, List.drop_drop, h2]

theorem readAll_window (chunks : List (List Nat)) :
    ∀ W : List Nat,
      flateTakeoverReadWrapper.readAll ⟨true, W⟩ chunks =
        ⟨true, windowTrim (W ++ chunks.flatten)⟩ ∨
      (chunks = [] ∧
        flateTakeoverReadWrapper.readAll ⟨true, W⟩ chunks = ⟨true, W⟩) := by
  induction chunks with
  | nil =>
    intro W
    right
    exact ⟨rfl, rfl⟩
  | cons c cs ih =>
    intro W
    left
    have hstep : (flateTakeoverReadWrapper.read ⟨true, W⟩ c none).1 =
        ⟨true, windowTrim (W ++ c)⟩ := read_window_eq _ _ _ rfl
    have hfold : flateTakeoverReadWrapper.readAll ⟨true, W⟩ (c :: cs) =
        flateTakeoverReadWrapper.readAll ⟨true, windowTrim (W ++ c)⟩ cs := by
      simp only [flateTakeoverReadWrapper.readAll, List.foldl_cons, hstep]
    rw [hfold]
    rcases ih (windowTrim (W ++ c)) with h | ⟨hnil, h⟩
    · rw [h, windowTrim_absorb, List.append_assoc]
      rfl
    · rw [hnil] at h ⊢
      rw [h]
      simp only [List.flatten_cons, List.flatten_nil, List.append_nil]

/-- Claim C2: after any sequence of reads on the persistent
(context-takeover) decompression reader starting from an empty window, the
retained sliding window is exactly the last `min maxWindowBits length`
bytes of the cumulative decompressed output (oldest bytes dropped from the
front), and in particular never exceeds `maxWindowBits = 32768` in length. -/
theorem takeover_window_cap (chunks : List (List Nat)) :
    (flateTakeoverReadWrapper.readAll ⟨true, []⟩ chunks).window =
        chunks.flatten.drop (chunks.flatten.length - maxWindowBits) ∧
      (flateTakeoverReadWrapper.readAll ⟨true, []⟩ chunks).window.length =
        min chunks.flatten.length maxWindowBits ∧
      (flateTakeoverReadWrapper.readAll ⟨true, []⟩ chunks).window.length ≤
        maxWindowBits := by
  have h : (flateTakeoverReadWrapper.readAll ⟨true, []⟩ chunks).window =
      windowTrim chunks.flatten := by
    rcases readAll_window chunks [] with h | ⟨hnil, h⟩
    · rw [h, List.nil_append]
    · rw [hnil] at h ⊢
      rw [h]
      rfl
  refine ⟨by rw [h]; rfl, ?_, ?_⟩
  · rw [h]
    unfold windowTrim
    simp only [List.length_drop]
    omega
  · rw [h]
    unfold windowTrim
    simp only [List.length_drop]
    omega

/-- Claim C4 (failing evaluation): `flateTakeoverReadWrapper.Close` on an
open stream succeeds but leaves the stream marked open (`f.fr` is never set
to nil), so an immediately following `Read` still delegates to the
underlying decompressor and can succeed, returning bytes and no error instead
of the required "closed stream" error; a second `Close` likewise returns the
underlying decompressor's `nil` rather than the "closed stream" error. -/
theorem takeover_close_leaves_stream_open :
    flateTakeoverReadWrapper.close ⟨true, []⟩ none = (⟨true, []⟩, none) ∧
    flateTakeoverReadWrapper.read ⟨true, []⟩ [7] none =
      (⟨true, [7]⟩, [7], none) ∧
    (flateTakeoverReadWrapper.read ⟨true, []⟩ [7] none).2.2 ≠
      some GoError.closedPipe := by
  have h2 : flateTakeoverReadWrapper.read ⟨true, []⟩ [7] none =
      (⟨true, [7]⟩, [7], none) := by
    simp [flateTakeoverReadWrapper.read, maxWindowBits]
  refine ⟨rfl, h2, by rw [h2]; simp⟩

/-! ## Transient read side: `flateReadWrapper` -/

/-- The state of a `flateReadWrapper` from `compression.go`: `fr` is the
pooled decompressor instance held by the wrapper (`none` models nil),
identified by a number. -/
structure flateReadWrapper where
  fr : Option Nat
deriving DecidableEq, Repr

/-- `flateReadWrapper.Close` from `compression.go`: on a nil `fr` it returns
`io.ErrClosedPipe`; otherwise it closes the underlying decompressor (result
`frCloseErr` is external input), puts the instance back into
`flateReaderPool` (modelled as a list of instances), sets `fr` to nil and
returns the close error. -/
def flateReadWrapper.close (r : flateReadWrapper) (pool : List Nat)
    (frCloseErr : Option GoError) :
    flateReadWrapper × List Nat × Option GoError :=
  match r.fr with
  | none => (r, pool, some GoError.closedPipe)
  | some id => (⟨none⟩, id :: pool, frCloseErr)

/-- `flateReadWrapper.Read` from `compression.go`: on a nil `fr` it returns
`(0, io.ErrClosedPipe)`; otherwise it delegates to the underlying
decompressor (which produced `chunk` and returned `err`, both external
input); if `err` is `io.EOF` it preemptively calls `Close` (whose return
value is discarded), then returns the chunk and the error unchanged. -/
def flateReadWrapper.read (r : flateReadWrapper) (pool : List Nat)
    (chunk : List Nat) (err : Option GoError) (frCloseErr : Option GoError) :
    flateReadWrapper × List Nat × List Nat × Option GoError :=
  match r.fr with
  | none => (r, pool, [], some GoError.closedPipe)
  | some _ =>
    if err = some GoError.eof then
      let c := flateReadWrapper.close r pool frCloseErr
      (c.1, c.2.1, chunk, err)
    else (r, pool, chunk, err)

/-- Claim C7: when a read on the transient decompression stream hits
end-of-stream, the wrapper closes itself — `fr` becomes nil and the instance
is returned to the reader pool — and the final chunk of bytes together with
the EOF signal are still delivered to the caller. -/
theorem read_eof_eager_release (id : Nat) (pool : List Nat)
    (chunk : List Nat) (frCloseErr : Option GoError) :
    flateReadWrapper.read ⟨some id⟩ pool chunk (some GoError.eof) frCloseErr =
      (⟨none⟩, id :: pool, chunk, some GoError.eof) := by
  rfl

/-! ## Write side: pooled compressors and close logic -/

/-- Model of a pooled `*flate.Writer` instance: its configured compression
level and its internal LZ77 state, abstracted as the history bytes it has
accumulated.  `flate.Writer.Reset` clears the state and keeps the level;
`flate.NewWriter(tw, level)` builds a fresh instance for `level`. -/
structure FlateWriter where
  level : Int
  history : List Nat
deriving DecidableEq, Repr

/-- The per-level free lists of the array `flateWriterPools`, modelled as a
map from pool index to the instances currently free in that pool
(`sync.Pool.Get` takes the head or reports empty; `Put` pushes). -/
def WriterPools : Type := Nat → List FlateWriter

/-- `sync.Pool.Put` on pool `i` of `flateWriterPools`. -/
def poolsPut (pools : WriterPools) (i : Nat) (fw : FlateWriter) : WriterPools :=
  fun j => if j = i then fw :: pools j else pools j

/-- The state of a `flateWriteWrapper` from `compression.go`: the flate
writer instance `fw` (`none` models nil), the truncWriter `tw`, and the
index `p` of the pool the wrapper's pool pointer refers to. -/
structure flateWriteWrapper where
  fw : Option FlateWriter
  tw : truncWriter
  p : Nat
deriving Repr

/-- `compressNoContextTakeover` from `compression.go`: picks the pool at
index `level - minCompressionLevel`, builds a fresh `truncWriter` around the
sink, takes an instance from that pool and resets it onto the truncWriter —
or builds a fresh `flate.NewWriter(tw, level)` on a pool miss — and returns
the wrapper recording the instance, the truncWriter and the pool.  The pool
access presumes `isValidCompressionLevel level` (claim C10); the index is
modelled with `Int.toNat`. -/
def compressNoContextTakeover (pools : WriterPools) (sink : Nat) (level : Int) :
    flateWriteWrapper × WriterPools :=
  let i := (level - minCompressionLevel).toNat
  match pools i with
  | [] => ({ fw := some ⟨level, []⟩, tw := truncWriter.mk0 sink, p := i }, pools)
  | fw :: rest =>
    ({ fw := some ⟨fw.level, []⟩, tw := truncWriter.mk0 sink, p := i },
      fun j => if j = i then rest else pools j)

/-- What `flateWriteWrapper.Close` did: which cleanup steps ran, the
resulting pools, wrapper state, and returned error. -/
structure WriteCloseOutcome where
  flushed : Bool
  pooled : Bool
  underlyingClosed : Bool
  pools : WriterPools
  w : flateWriteWrapper
  err : Option GoError

/-- `flateWriteWrapper.Close` from `compression.go`.  External inputs: the
bytes `flushBytes` that the compressor pushes through the truncWriter during
`fw.Flush()`, the flush error `err1`, and the underlying sink's close error
`err2`.  On a nil `fw` it returns `errWriteClosed` with nothing attempted.
Otherwise it flushes, puts the instance back into its pool and nils `fw`;
then, if the holding array differs from the sync-flush marker, it returns
the internal-fault error immediately (the underlying sink is NOT closed);
otherwise it zeroes the holding array and count, closes the underlying sink,
and returns `err1` if non-nil, else `err2`. -/
def flateWriteWrapper.close (w : flateWriteWrapper) (pools : WriterPools)
    (flushBytes : List Nat) (err1 err2 : Option GoError) : WriteCloseOutcome :=
  match w.fw with
  | none => ⟨false, false, false, pools, w, some GoError.writeClosed⟩
  | some fw =>
    let tw1 := w.tw.write flushBytes
    let pools1 := poolsPut pools w.p fw
    if tw1.p ≠ trailer4 then
      ⟨true, true, false, pools1, { w with fw := none, tw := tw1 },
        some GoError.internalError⟩
    else
      ⟨true, true, true, pools1,
        { w with fw := none, tw := { tw1 with p := [0, 0, 0, 0], n := 0 } },
        match err1 with | some e => some e | none => err2⟩

/-- The state of a `contextTakeoverWriterFactory` from `compression.go`: the
connection's single flate writer and its single truncWriter. -/
structure contextTakeoverWriterFactory where
  fw : FlateWriter
  tw : truncWriter
deriving Repr

/-- `contextTakeoverWriterFactory.newCompressionWriter` from
`compression.go`: rebinds the truncWriter's sink (`f.tw.w = w`) and resets
its held count (`f.tw.n = 0`); nothing else is touched (the `level` argument
is ignored by the Go code, and the compressor keeps its history). -/
def contextTakeoverWriterFactory.newCompressionWriter
    (f : contextTakeoverWriterFactory) (sink : Nat) (_level : Int) :
    contextTakeoverWriterFactory :=
  { f with tw := { f.tw with w := sink, n := 0 } }

/-- What `flateTakeoverWriteWrapper.Close` did: which cleanup steps ran, the
surviving factory, and the returned error. -/
structure TakeoverCloseOutcome where
  flushed : Bool
  underlyingClosed : Bool
  f : Option contextTakeoverWriterFactory
  err : Option GoError

/-- `flateTakeoverWriteWrapper.Close` from `compression.go`.  External
inputs as in `flateWriteWrapper.close`.  On a nil wrapper reference it
returns `errWriteClosed`.  Otherwise it nils the wrapper's reference,
flushes, and — exactly like the transient close, but with no pool and no
zeroing of the holding state — returns the internal-fault error on a trailer
mismatch without closing the underlying sink, else closes the sink and
returns `err1` if non-nil, else `err2`.  The factory itself survives. -/
def flateTakeoverWriteWrapper.close (wf : Option contextTakeoverWriterFactory)
    (flushBytes : List Nat) (err1 err2 : Option GoError) : TakeoverCloseOutcome :=
  match wf with
  | none => ⟨false, false, none, some GoError.writeClosed⟩
  | some f =>
    let tw1 := f.tw.write flushBytes
    if tw1.p ≠ trailer4 then
      ⟨true, false, some { f with tw := tw1 }, some GoError.internalError⟩
    else
      ⟨true, true, some { f with tw := tw1 },
        match err1 with | some e => some e | none => err2⟩

/-- Claim C3 (counterexample): closing a transient compression stream whose
flush failed with an I/O error and whose trailer bytes are wrong returns the
internal-fault error — not the first (flush) error — and never attempts the
underlying close, refuting both the stated error precedence and the
all-three-steps-attempted policy. -/
theorem close_skips_underlying_on_trailer_mismatch :
    (flateWriteWrapper.close ⟨some ⟨1, []⟩, truncWriter.mk0 0, 0⟩
        (fun _ => []) [1, 2, 3, 4] (some (GoError.ioError 7)) none).underlyingClosed
      = false ∧
    (flateWriteWrapper.close ⟨some ⟨1, []⟩, truncWriter.mk0 0, 0⟩
        (fun _ => []) [1, 2, 3, 4] (some (GoError.ioError 7)) none).err
      = some GoError.internalError ∧
    (flateWriteWrapper.close ⟨some ⟨1, []⟩, truncWriter.mk0 0, 0⟩
        (fun _ => []) [1, 2, 3, 4] (some (GoError.ioError 7)) none).err
      ≠ some (GoError.ioError 7) := by
  refine ⟨rfl, rfl, by simp [flateWriteWrapper.close, truncWriter.mk0,
    truncWriter.write, poolsPut, trailer4]⟩

/-- Claim C3 (amended): on close of an open compression write stream
(transient or persistent), the flush is always attempted and — in transient
mode — the instance is always released to the pool; when the trailer bytes
are wrong, the internal-fault error is returned even if the flush failed and
the underlying sink is NOT closed; only when the trailer is right is the
underlying sink closed, and then the flush error takes precedence over the
underlying-close error. -/
theorem close_cleanup_policy :
    (∀ (w : flateWriteWrapper) (pools : WriterPools) (flushBytes : List Nat)
        (err1 err2 : Option GoError) (fw : FlateWriter), w.fw = some fw →
      (flateWriteWrapper.close w pools flushBytes err1 err2).flushed = true ∧
      (flateWriteWrapper.close w pools flushBytes err1 err2).pooled = true ∧
      ((w.tw.write flushBytes).p ≠ trailer4 →
        (flateWriteWrapper.close w pools flushBytes err1 err2).err =
            some GoError.internalError ∧
        (flateWriteWrapper.close w pools flushBytes err1 err2).underlyingClosed
            = false) ∧
      ((w.tw.write flushBytes).p = trailer4 →
        (flateWriteWrapper.close w pools flushBytes err1 err2).underlyingClosed
            = true ∧
        (flateWriteWrapper.close w pools flushBytes err1 err2).err =
          (match err1 with | some e => some e | none => err2))) ∧
    (∀ (f : contextTakeoverWriterFactory) (flushBytes : List Nat)
        (err1 err2 : Option GoError),
      (flateTakeoverWriteWrapper.close (some f) flushBytes err1 err2).flushed
          = true ∧
      ((f.tw.write flushBytes).p ≠ trailer4 →
        (flateTakeoverWriteWrapper.close (some f) flushBytes err1 err2).err =
            some GoError.internalError ∧
        (flateTakeoverWriteWrapper.close (some f) flushBytes err1 err2).underlyingClosed
            = false) ∧
      ((f.tw.write flushBytes).p = trailer4 →
        (flateTakeoverWriteWrapper.close (some f) flushBytes err1 err2).underlyingClosed
            = true ∧
        (flateTakeoverWriteWrapper.close (some f) flushBytes err1 err2).err =
          (match err1 with | some e => some e | none => err2))) := by
  constructor
  · intro w pools flushBytes err1 err2 fw hw
    by_cases htr : (w.tw.write flushBytes).p = trailer4 <;>
      simp [flateWriteWrapper.close, hw, htr]
  · intro f flushBytes err1 err2
    by_cases htr : (f.tw.write flushBytes).p = trailer4 <;>
      simp [flateTakeoverWriteWrapper.close, htr]

/-- Witness for the amended close policy, at a concrete wrapper whose flush
emits exactly the sync-flush marker and fails with an I/O error: all steps
run and the flush error is the one returned. -/
theorem close_cleanup_policy_witness :
    (flateWriteWrapper.close ⟨some ⟨1, []⟩, truncWriter.mk0 0, 3⟩
        (fun _ => []) [0, 0, 0xff, 0xff] (some (GoError.ioError 3)) none).flushed
      = true ∧
    (flateWriteWrapper.close ⟨some ⟨1, []⟩, truncWriter.mk0 0, 3⟩
        (fun _ => []) [0, 0, 0xff, 0xff] (some (GoError.ioError 3)) none).underlyingClosed
      = true ∧
    (flateWriteWrapper.close ⟨some ⟨1, []⟩, truncWriter.mk0 0, 3⟩
        (fun _ => []) [0, 0, 0xff, 0xff] (some (GoError.ioError 3)) none).err
      = some (GoError.ioError 3) ∧
    (flateTakeoverWriteWrapper.close (some ⟨⟨1, []⟩, truncWriter.mk0 0⟩)
        [0, 0, 0xff, 0xff] none (some (GoError.ioError 5))).err
      = some (GoError.ioError 5) := by
  have htr : ((truncWriter.mk0 0).write [0, 0, 0xff, 0xff]).p = trailer4 := rfl
  have h1 := (close_cleanup_policy.1 ⟨some ⟨1, []⟩, truncWriter.mk0 0, 3⟩
    (fun _ => []) [0, 0, 0xff, 0xff] (some (GoError.ioError 3)) none ⟨1, []⟩ rfl)
  have h2 := (close_cleanup_policy.2 ⟨⟨1, []⟩, truncWriter.mk0 0⟩
    [0, 0, 0xff, 0xff] none (some (GoError.ioError 5)))
  exact ⟨h1.1, (h1.2.2.2 htr).1, (h1.2.2.2 htr).2, (h2.2.2 htr).2⟩

/-- Claim C5: at close of an open transient compression write stream with an
error-free flush and sink, if the four held bytes equal the sync-flush
marker the close succeeds — returning no error, forwarding nothing further
to the sink (the held bytes are discarded: the holding array is zeroed, not
flushed) and closing the underlying sink; if they differ, the close returns
the dedicated internal-fault error, which is not an I/O error, and the sink
is not closed. -/
theorem trailer_check_at_close (w : flateWriteWrapper) (pools : WriterPools)
    (flushBytes : List Nat) (fw : FlateWriter) (hw : w.fw = some fw) :
    ((w.tw.write flushBytes).p = trailer4 →
      (flateWriteWrapper.close w pools flushBytes none none).err = none ∧
      (flateWriteWrapper.close w pools flushBytes none none).underlyingClosed
          = true ∧
      (flateWriteWrapper.close w pools flushBytes none none).w.tw.out =
        (w.tw.write flushBytes).out ∧
      (flateWriteWrapper.close w pools flushBytes none none).w.tw.p =
        [0, 0, 0, 0] ∧
      (flateWriteWrapper.close w pools flushBytes none none).w.tw.n = 0) ∧
    ((w.tw.write flushBytes).p ≠ trailer4 →
      (flateWriteWrapper.close w pools flushBytes none none).err =
          some GoError.internalError ∧
      (flateWriteWrapper.close w pools flushBytes none none).underlyingClosed
          = false ∧
      ∀ k, (flateWriteWrapper.close w pools flushBytes none none).err ≠
        some (GoError.ioError k)) := by
  by_cases htr : (w.tw.write flushBytes).p = trailer4 <;>
    simp [flateWriteWrapper.close, hw, htr]

/-- Witness for the trailer check at close, on both branches: a flush
emitting exactly the marker succeeds with the sink closed, and one emitting
wrong bytes yields the internal-fault error with the sink left open. -/
theorem trailer_check_at_close_witness :
    (flateWriteWrapper.close ⟨some ⟨2, []⟩, truncWriter.mk0 0, 4⟩
        (fun _ => []) [0, 0, 0xff, 0xff] none none).err = none ∧
    (flateWriteWrapper.close ⟨some ⟨2, []⟩, truncWriter.mk0 0, 4⟩
        (fun _ => []) [0, 0, 0xff, 0xff] none none).underlyingClosed = true ∧
    (flateWriteWrapper.close ⟨some ⟨2, []⟩, truncWriter.mk0 0, 4⟩
        (fun _ => []) [9, 9, 9, 9] none none).err =
      some GoError.internalError ∧
    (flateWriteWrapper.close ⟨some ⟨2, []⟩, truncWriter.mk0 0, 4⟩
        (fun _ => []) [9, 9, 9, 9] none none).underlyingClosed = false := by
  have hgood := trailer_check_at_close ⟨some ⟨2, []⟩, truncWriter.mk0 0, 4⟩
    (fun _ => []) [0, 0, 0xff, 0xff] ⟨2, []⟩ rfl
  have hbad := trailer_check_at_close ⟨some ⟨2, []⟩, truncWriter.mk0 0, 4⟩
    (fun _ => []) [9, 9, 9, 9] ⟨2, []⟩ rfl
  have htr : ((truncWriter.mk0 0).write [0, 0, 0xff, 0xff]).p = trailer4 := rfl
  have hne : ((truncWriter.mk0 0).write [9, 9, 9, 9]).p ≠ trailer4 := by
    intro hc
    exact absurd hc (by simp [truncWriter.mk0, truncWriter.write, trailer4])
  exact ⟨(hgood.1 htr).1, (hgood.1 htr).2.1, (hbad.2 hne).1, (hbad.2 hne).2.1⟩

/-! ## Pool isolation by compression level -/

/-- The compression level that pool index `i` stands for. -/
def idxLevel (i : Nat) : Int := (i : Int) + minCompressionLevel

/-- Every instance sitting in pool `i` is configured for the level that
index `i` stands for. -/
def poolsWF (pools : WriterPools) : Prop :=
  ∀ i : Nat, ∀ fw ∈ pools i, fw.level = idxLevel i

theorem poolsWF_put (pools : WriterPools) (i : Nat) (fw : FlateWriter)
    (hp : poolsWF pools) (hl : fw.level = idxLevel i) :
    poolsWF (poolsPut pools i fw) := by
  intro j g hg
  unfold poolsPut at hg
  by_cases hji : j = i
  · rw [if_pos hji] at hg
    rcases List.mem_cons.mp hg with rfl | hmem
    · rw [hji]
      exact hl
    · exact hp j g hmem
  · rw [if_neg hji] at hg
    exact hp j g hg

/-- Claim C6: pools are partitioned strictly by level.  Acquiring via
`compressNoContextTakeover` at a valid level `L` from well-formed pools
yields an instance configured for `L` (never some other level), records the
pool index of `L` in the wrapper, and preserves well-formedness; and
`flateWriteWrapper.Close` releases the instance back into that same recorded
pool, preserving well-formedness — so a later acquire at `L' ≠ L` can never
receive it. -/
theorem pool_level_isolation :
    (∀ (pools : WriterPools) (sink : Nat) (level : Int),
      poolsWF pools → isValidCompressionLevel level →
      (∃ fw, (compressNoContextTakeover pools sink level).1.fw = some fw ∧
        fw.level = level) ∧
      (compressNoContextTakeover pools sink level).1.p =
        (level - minCompressionLevel).toNat ∧
      poolsWF (compressNoContextTakeover pools sink level).2) ∧
    (∀ (w : flateWriteWrapper) (pools : WriterPools) (flushBytes : List Nat)
        (err1 err2 : Option GoError) (fw : FlateWriter),
      poolsWF pools → w.fw = some fw → fw.level = idxLevel w.p →
      poolsWF (flateWriteWrapper.close w pools flushBytes err1 err2).pools) := by
  constructor
  · intro pools sink level hwf hvalid
    have hidx : idxLevel (level - minCompressionLevel).toNat = level := by
      unfold idxLevel
      rw [Int.toNat_of_nonneg (by
        unfold isValidCompressionLevel at hvalid
        unfold minCompressionLevel at hvalid ⊢
        omega)]
      omega
    simp only [compressNoContextTakeover]
    cases hpool : pools (level - minCompressionLevel).toNat with
    | nil =>
      exact ⟨⟨⟨level, []⟩, rfl, rfl⟩, rfl, hwf⟩
    | cons fw rest =>
      refine ⟨⟨⟨fw.level, []⟩, rfl, ?_⟩, rfl, ?_⟩
      · have := hwf (level - minCompressionLevel).toNat fw
          (by rw [hpool]; exact List.mem_cons_self _ _)
        rw [this, hidx]
      · intro j g hg
        replace hg : g ∈ (if j = (level - minCompressionLevel).toNat
            then rest else pools j) := hg
        by_cases hji : j = (level - minCompressionLevel).toNat
        · subst hji
          rw [if_pos rfl] at hg
          exact hwf _ g (by rw [hpool]; exact List.mem_cons_of_mem _ hg)
        · rw [if_neg hji] at hg
          exact hwf j g hg
  · intro w pools flushBytes err1 err2 fw hwf hw hl
    by_cases htr : (w.tw.write flushBytes).p = trailer4
    · simp only [flateWriteWrapper.close, hw, htr, ne_eq, not_true_eq_false,
        if_false]
      exact poolsWF_put pools w.p fw hwf hl
    · simp only [flateWriteWrapper.close, hw, ne_eq, htr, not_false_eq_true,
        if_true]
      exact poolsWF_put pools w.p fw hwf hl

/-- Witness for pool isolation: empty pools are well-formed, level `5` is
valid, acquiring at level `5` yields an instance configured for level `5`,
and a close releasing into a matching pool index keeps well-formedness. -/
theorem pool_level_isolation_witness :
    poolsWF (fun _ => []) ∧ isValidCompressionLevel 5 ∧
    (∃ fw, (compressNoContextTakeover (fun _ => []) 0 5).1.fw = some fw ∧
      fw.level = 5) ∧
    poolsWF (flateWriteWrapper.close ⟨some ⟨minCompressionLevel, []⟩,
      truncWriter.mk0 0, 0⟩ (fun _ => []) [0, 0, 0xff, 0xff] none none).pools := by
  have hwf : poolsWF (fun _ => []) := by
    intro i fw hfw
    simp at hfw
  have hvalid : isValidCompressionLevel 5 := by decide
  refine ⟨hwf, hvalid, (pool_level_isolation.1 (fun _ => []) 0 5 hwf hvalid).1, ?_⟩
  exact pool_level_isolation.2 ⟨some ⟨minCompressionLevel, []⟩,
    truncWriter.mk0 0, 0⟩ (fun _ => []) [0, 0, 0xff, 0xff] none none
    ⟨minCompressionLevel, []⟩ hwf rfl (by unfold idxLevel; simp)

/-- Claim C8: `newCompressionWriter` on the persistent compressor factory
changes only the truncWriter's sink binding (now `sink`) and held count (now
`0`); the flate writer — including all its compression history — and the
truncWriter's holding array and forwarded bytes are untouched. -/
theorem takeover_writer_rebind_only (f : contextTakeoverWriterFactory)
    (sink : Nat) (level : Int) :
    (f.newCompressionWriter sink level).fw = f.fw ∧
    (f.newCompressionWriter sink level).fw.history = f.fw.history ∧
    (f.newCompressionWriter sink level).tw.w = sink ∧
    (f.newCompressionWriter sink level).tw.n = 0 ∧
    (f.newCompressionWriter sink level).tw.p = f.tw.p ∧
    (f.newCompressionWriter sink level).tw.out = f.tw.out := by
  exact ⟨rfl, rfl, rfl, rfl, rfl, rfl⟩

/-- Claim C10: `compressNoContextTakeover` performs no level validation; the
pool array has exactly 12 entries, and the index `level -
minCompressionLevel` it uses is within those bounds precisely when
`isValidCompressionLevel level` holds — for any level outside that range the
index falls outside the array, so validity is a caller precondition for the
pool access to be in bounds. -/
theorem pool_index_bounds :
    flateWriterPoolsLen = 12 ∧
    ∀ level : Int, isValidCompressionLevel level ↔
      (0 ≤ level - minCompressionLevel ∧
        level - minCompressionLevel < (flateWriterPoolsLen : Int)) := by
  have h12 : flateWriterPoolsLen = 12 := rfl
  refine ⟨h12, fun level => ?_⟩
  rw [h12]
  unfold isValidCompressionLevel minCompressionLevel maxCompressionLevel
  omega

/-! ## Round-trip through the wrapper plumbing -/

/-- Modelled from the spec: the DEFLATE codec underneath the wrappers is the
standard library's `compress/flate`, external to this repository (§1:
"delegate to a standard library compressor/decompressor primitive").  A
transient-mode codec is two pure functions: `deflate P` — the bytes the
compressor hands its destination over `Write(P)` followed by `Flush()` —
and `inflate x` — the bytes the decompressor produces from the byte stream
`x`, with no preset dictionary. -/
structure FlateCodec where
  deflate : List Nat → List Nat
  inflate : List Nat → List Nat

/-- The documented `compress/flate` contract the round-trip relies on: a
flushed stream ends with the sync-flush marker, and inflating a flushed
stream followed by a final empty stored block recovers the input. -/
def FlateCodecOK (c : FlateCodec) : Prop :=
  (∀ P, ∃ body, c.deflate P = body ++ trailer4) ∧
  (∀ P, c.inflate (c.deflate P ++ finalBlock) = P)

/-- `decompressNoContextTakeover` from `compression.go`, composed with
reading the returned wrapper to end-of-stream: the pooled decompressor is
reset onto `io.MultiReader(r, strings.NewReader(tail))` with no dictionary,
so the bytes delivered are the inflation of `wire ++ tail`. -/
def decompressNoContextTakeover (c : FlateCodec) (wire : List Nat) : List Nat :=
  c.inflate (wire ++ tail)

/-- One message through the persistent (context-takeover) write path:
`newCompressionWriter` rebinds the factory's truncWriter to a fresh sink and
zeroes its held count; writing the message and closing pushes the stateful
compressor's flushed output `(dfl s P).1` through the truncWriter and
validates the trailer.  Returns the compressor state and truncWriter after
the message, and the bytes this message put on the wire — the suffix the new
sink received — or `none` on a trailer-validation failure. -/
def takeoverCompressMsg {σ : Type} (dfl : σ → List Nat → List Nat × σ)
    (s : σ) (tw : truncWriter) (sink : Nat) (P : List Nat) :
    σ × truncWriter × Option (List Nat) :=
  let tw0 : truncWriter := { tw with w := sink, n := 0 }
  let r := dfl s P
  let tw1 := tw0.write r.1
  (r.2, tw1, if tw1.p = trailer4 then some (tw1.out.drop tw.out.length) else none)

/-- A sequence of messages through the persistent write path, reusing the
factory's compressor and truncWriter across messages. -/
def takeoverCompressAll {σ : Type} (dfl : σ → List Nat → List Nat × σ)
    (s : σ) (tw : truncWriter) : List (List Nat) → List (Option (List Nat))
  | [] => []
  | P :: Ps =>
    (takeoverCompressMsg dfl s tw 0 P).2.2 ::
      takeoverCompressAll dfl (takeoverCompressMsg dfl s tw 0 P).1
        (takeoverCompressMsg dfl s tw 0 P).2.1 Ps

/-- A sequence of messages through the persistent read path
(`newDeCompressionReader` plus reads to end-of-stream per message): each
message resets the decompressor onto `wire ++ tail` with the current window
as preset dictionary (`inf`), delivers the produced bytes, and updates the
window exactly as `flateTakeoverReadWrapper.read` does — `windowTrim` of the
window plus the produced bytes, independent of read chunking by
`readAll_window`. -/
def takeoverDecompressAll (inf : List Nat → List Nat → List Nat)
    (window : List Nat) : List (List Nat) → List (List Nat)
  | [] => []
  | wire :: ws =>
    inf window (wire ++ tail) ::
      takeoverDecompressAll inf
        (windowTrim (window ++ inf window (wire ++ tail))) ws

theorem takeoverCompressMsg_spec {σ : Type} (dfl : σ → List Nat → List Nat × σ)
    (s : σ) (tw : truncWriter) (sink : Nat) (P body : List Nat)
    (hp : tw.p.length = 4) (hD : (dfl s P).1 = body ++ trailer4) :
    (takeoverCompressMsg dfl s tw sink P).2.2 = some body ∧
    (takeoverCompressMsg dfl s tw sink P).2.1.p.length = 4 ∧
    (takeoverCompressMsg dfl s tw sink P).1 = (dfl s P).2 := by
  have hinv0 : truncInv { tw with w := sink, n := 0 } tw.out [] := by
    refine ⟨hp, rfl, rfl, by simp⟩
  have hinv1 := truncInv_write { tw with w := sink, n := 0 } tw.out []
    (dfl s P).1 hinv0
  rw [List.nil_append] at hinv1
  obtain ⟨hp1, hn1, hheld1, hout1⟩ := hinv1
  have hlen : (dfl s P).1.length = body.length + 4 := by
    rw [hD]
    simp [trailer4]
  have hn4 : ({ tw with w := sink, n := 0 }.write (dfl s P).1).n = 4 := by
    rw [hn1]
    omega
  have hidx2 : (body ++ trailer4).length - 4 = body.length := by
    simp [trailer4]
  have hptrail : ({ tw with w := sink, n := 0 }.write (dfl s P).1).p =
      trailer4 := by
    have h1 : ({ tw with w := sink, n := 0 }.write (dfl s P).1).p.take 4 =
        ({ tw with w := sink, n := 0 }.write (dfl s P).1).p :=
      List.take_of_length_le (by omega)
    rw [← h1, ← hn4, hheld1, hn4, hD, hidx2, List.drop_left]
  have hwire : ({ tw with w := sink, n := 0 }.write (dfl s P).1).out.drop
      tw.out.length = body := by
    rw [hout1, hn4, hD, hidx2, List.take_left, List.drop_left]
  refine ⟨?_, ?_, rfl⟩
  · simp only [takeoverCompressMsg]
    rw [if_pos hptrail, hwire]
  · simp only [takeoverCompressMsg]
    exact hp1

/-- Claim C9: writing any payload through a compression stream, closing it,
and reading the wire bytes back through the matching decompression stream
returns exactly the payload — in transient mode for every codec satisfying
the flate contract, every payload and every write chunking, and in
persistent (context-takeover) mode for every stateful codec whose
deflate/inflate pair round-trips relative to the sliding-window dictionary,
every message sequence, and any starting factory state. -/
theorem roundtrip_plumbing :
    (∀ c : FlateCodec, FlateCodecOK c →
      ∀ (P : List Nat) (chunks : List (List Nat)),
        chunks.flatten = c.deflate P →
        ((truncWriter.mk0 0).writeChunks chunks).p = trailer4 ∧
        decompressNoContextTakeover c
          ((truncWriter.mk0 0).writeChunks chunks).out = P) ∧
    (∀ (σ : Type) (dfl : σ → List Nat → List Nat × σ)
        (inf : List Nat → List Nat → List Nat) (dictOK : σ → List Nat → Prop),
      (∀ s P, ∃ body, (dfl s P).1 = body ++ trailer4) →
      (∀ s d P, dictOK s d → inf d ((dfl s P).1 ++ finalBlock) = P) →
      (∀ s d P, dictOK s d → dictOK (dfl s P).2 (windowTrim (d ++ P))) →
      ∀ (Ps : List (List Nat)) (s : σ) (tw : truncWriter) (W : List Nat),
        dictOK s W → tw.p.length = 4 →
        ∃ wires : List (List Nat),
          takeoverCompressAll dfl s tw Ps = wires.map some ∧
          takeoverDecompressAll inf W wires = Ps) := by
  constructor
  · intro c hOK P chunks hchunks
    obtain ⟨body, hD⟩ := hOK.1 P
    have hinv := truncInv_writeChunks chunks (truncWriter.mk0 0) [] []
      (truncInv_mk0 0)
    rw [List.nil_append, hchunks] at hinv
    obtain ⟨hp1, hn1, hheld1, hout1⟩ := hinv
    have hlen : (c.deflate P).length = body.length + 4 := by
      rw [hD]
      simp [trailer4]
    have hn4 : ((truncWriter.mk0 0).writeChunks chunks).n = 4 := by
      rw [hn1]
      omega
    have hidx : (c.deflate P).length -
        ((truncWriter.mk0 0).writeChunks chunks).n = body.length := by
      rw [hn4]
      omega
    have hptrail : ((truncWriter.mk0 0).writeChunks chunks).p = trailer4 := by
      have h1 : ((truncWriter.mk0 0).writeChunks chunks).p.take 4 =
          ((truncWriter.mk0 0).writeChunks chunks).p :=
        List.take_of_length_le (by omega)
      rw [← h1, ← hn4, hheld1, hidx, hD, List.drop_left]
    refine ⟨hptrail, ?_⟩
    rw [decompressNoContextTakeover, hout1, hidx, hD, List.take_left]
    show c.inflate (body ++ (trailer4 ++ finalBlock)) = P
    rw [← List.append_assoc, ← hD]
    exact hOK.2 P
  · intro σ dfl inf dictOK H1 H2 H3 Ps
    induction Ps with
    | nil =>
      intro s tw W hdict hp
      exact ⟨[], rfl, rfl⟩
    | cons P Ps ih =>
      intro s tw W hdict hp
      obtain ⟨body, hD⟩ := H1 s P
      obtain ⟨hwire, hp', hs'⟩ := takeoverCompressMsg_spec dfl s tw 0 P body hp hD
      have hinflate : inf W (body ++ tail) = P := by
        show inf W (body ++ (trailer4 ++ finalBlock)) = P
        rw [← List.append_assoc, ← hD]
        exact H2 s W P hdict
      have hdict' : dictOK (dfl s P).2 (windowTrim (W ++ P)) := H3 s W P hdict
      obtain ⟨wires, hcomp, hdecomp⟩ := ih (dfl s P).2
        (takeoverCompressMsg dfl s tw 0 P).2.1 (windowTrim (W ++ P)) hdict' hp'
      refine ⟨body :: wires, ?_, ?_⟩
      · show (takeoverCompressMsg dfl s tw 0 P).2.2 ::
          takeoverCompressAll dfl (takeoverCompressMsg dfl s tw 0 P).1
            (takeoverCompressMsg dfl s tw 0 P).2.1 Ps = some body :: wires.map some
        rw [hwire, hs', hcomp]
      · show inf W (body ++ tail) ::
          takeoverDecompressAll inf (windowTrim (W ++ inf W (body ++ tail)))
            wires = P :: Ps
        rw [hinflate, hdecomp]

/-- A toy codec satisfying `FlateCodecOK`: "compression" is the identity
followed by the sync-flush marker, "decompression" strips the 9 trailing
marker-plus-final-block bytes. -/
def idCodec : FlateCodec :=
  ⟨fun P => P ++ trailer4, fun x => x.take (x.length - 9)⟩

/-- The toy stateful deflate for the persistent mode: identity plus marker,
no state. -/
def toyDeflate : Unit → List Nat → List Nat × Unit :=
  fun _ P => (P ++ trailer4, ())

/-- The toy dictionary-taking inflate for the persistent mode. -/
def toyInflate : List Nat → List Nat → List Nat :=
  fun _ x => x.take (x.length - 9)

theorem toyInflate_strips (d P : List Nat) :
    toyInflate d ((P ++ trailer4) ++ finalBlock) = P := by
  unfold toyInflate
  have hidx : ((P ++ trailer4) ++ finalBlock).length - 9 = P.length := by
    simp [trailer4, finalBlock]
  rw [hidx, List.append_assoc, List.take_left]

theorem idCodec_ok : FlateCodecOK idCodec := by
  constructor
  · intro P
    exact ⟨P, rfl⟩
  · intro P
    exact toyInflate_strips [] P

/-- Witness for the round-trip: concrete payloads through the toy codec in
both modes. -/
theorem roundtrip_plumbing_witness :
    (((truncWriter.mk0 0).writeChunks [[1, 2], [3, 0, 0, 0xff, 0xff]]).p =
        trailer4 ∧
      decompressNoContextTakeover idCodec
        ((truncWriter.mk0 0).writeChunks [[1, 2], [3, 0, 0, 0xff, 0xff]]).out =
        [1, 2, 3]) ∧
    (∃ wires : List (List Nat),
      takeoverCompressAll toyDeflate () (truncWriter.mk0 0) [[5, 6], [7]] =
        wires.map some ∧
      takeoverDecompressAll toyInflate [] wires = [[5, 6], [7]]) := by
  constructor
  · exact roundtrip_plumbing.1 idCodec idCodec_ok [1, 2, 3]
      [[1, 2], [3, 0, 0, 0xff, 0xff]] (by decide)
  · exact roundtrip_plumbing.2 Unit toyDeflate toyInflate (fun _ _ => True)
      (fun s P => ⟨P, rfl⟩) (fun s d P _ => toyInflate_strips d P)
      (fun s d P _ => trivial) [[5, 6], [7]] () (truncWriter.mk0 0) []
      trivial rfl

end Websocket
